import Mathlib

/-!
Verification of the core renderer of the `rust-doom` repository
(`src/renderer.rs`, `src/main.rs`).

Modelling conventions (shallow embedding):
* `f32` values are modelled by exact rationals `ℚ`, with the float literals
  `1e-20` and `1e30` taken at their ideal values `1/10^20` and `10^30`.  The
  claims at issue are about branch structure, termination, ordering and
  integer pixel output, whose proofs are rounding-agnostic; the one claim
  about the sign of a float difference (C7) is settled as a nonnegativity
  statement whose inequality chain is preserved by monotone IEEE rounding —
  strict positivity is refuted, and would in any case be defeated in `f32`
  by absorption in `side_dist += delta_dist`.
* `u32` arithmetic on colors is modelled by `Nat` with the masks of the source;
  the multiplications involved never exceed `2^32`, so no wrap-around occurs in
  the source either (`0xFF00FF * 0xC0 < 2^32`).
* `usize` cell indices are modelled by `ℤ`; the saturating `f32 as usize` cast
  is `max ⌊q⌋ 0`.  The one-dimensional map access `MAP_DATA[iy * 15 + ix]`
  returns `none` (a Rust panic) when the index is negative or `≥ 225`,
  mirroring the bounds check of the slice index.
* The unbounded `while hit.0 == 0` loop is modelled by an explicit fuel
  parameter.  `render` instantiates the fuel with `30 = map_width +
  map_height`; the termination theorem below shows that every traversal that
  stays inside the 15×15 grid finishes within that bound, so the fueled model
  and the unbounded loop agree on every completed in-grid run.
* The pixel buffer is modelled as a total function `Nat → Nat` from byte index
  to byte value; `Vec<u8>` writes become pointwise updates.  Writes that the
  source would perform out of bounds (the `u32` underflow of `300 - h/2`)
  are modelled as failure (`none`), since both the debug build (subtraction
  overflow panic) and the release build (out-of-bounds pixel index panic)
  abort there.
-/

set_option maxRecDepth 100000

section RustDoom

/- `Rat.add`, `Rat.mul`, `Rat.inv` and `Rat.sub` are `@[irreducible]` in
Batteries, which blocks `decide`/`rfl` evaluation of concrete rational
arithmetic in the elaborator (the kernel reduces them regardless).  The
claims are settled on concrete cameras, so restore the default
reducibility inside this development. -/
attribute [local semireducible] Rat.add Rat.mul Rat.inv Rat.sub

/-- The compiled-in 15×15 tile map `MAP_DATA` (renderer.rs lines 11–27). -/
def mapData : List Nat :=
  [1, 1, 1, 1, 1, 1, 1, 1, 1, 1, 1, 1, 1, 1, 1,
   1, 0, 0, 0, 0, 0, 0, 0, 0, 0, 0, 0, 0, 0, 1,
   1, 0, 0, 0, 0, 0, 0, 0, 0, 0, 0, 0, 0, 0, 1,
   1, 0, 0, 0, 0, 0, 0, 0, 0, 0, 0, 0, 0, 0, 1,
   1, 0, 0, 0, 0, 0, 0, 0, 0, 0, 0, 0, 0, 0, 1,
   1, 0, 0, 0, 0, 0, 0, 0, 0, 0, 0, 0, 0, 0, 1,
   1, 0, 0, 0, 0, 0, 0, 0, 0, 0, 0, 0, 0, 0, 1,
   1, 0, 0, 0, 0, 0, 0, 0, 0, 0, 0, 0, 0, 0, 1,
   1, 0, 0, 0, 2, 0, 0, 0, 0, 0, 0, 0, 0, 0, 1,
   1, 0, 0, 0, 2, 0, 0, 3, 3, 3, 0, 0, 0, 0, 1,
   1, 0, 0, 0, 0, 0, 0, 0, 0, 0, 0, 0, 0, 0, 1,
   1, 0, 0, 0, 0, 0, 0, 0, 0, 0, 0, 0, 0, 0, 1,
   1, 0, 0, 0, 0, 0, 0, 0, 0, 0, 0, 0, 0, 0, 1,
   1, 0, 0, 0, 0, 0, 0, 0, 0, 0, 0, 0, 0, 0, 1,
   1, 1, 1, 1, 1, 1, 1, 1, 1, 1, 1, 1, 1, 1, 1]

/-- The map lookup `MAP_DATA[ipos.1 * 15 + ipos.0]` (renderer.rs line 92).
`ℤ` indices model the `usize` cell coordinates; a negative coordinate
corresponds to the wrapped huge `usize` of `(ipos as i32 + step) as usize`,
which indexes far out of bounds, so both that case and a one-dimensional
index `≥ 225` are a slice-index panic, modelled as `none`. -/
def mapAt (ix iy : ℤ) : Option Nat :=
  if 0 ≤ ix ∧ 0 ≤ iy ∧ iy * 15 + ix < 225 then
    some (mapData.getD (iy * 15 + ix).toNat 0)
  else
    none

/-- The epsilon guard `1e-20` of renderer.rs lines 53/58/65/70. -/
def eps : ℚ := 1 / 10 ^ 20

/-- The large sentinel `1e30` of renderer.rs lines 54/59. -/
def sentinel : ℚ := 10 ^ 30

/-- `delta_dist` per axis (renderer.rs lines 52–63):
`if ray.abs() < 1e-20 { 1e30 } else { ray.recip().abs() }`.
When the guard is taken the reciprocal is never computed. -/
def deltaDist (r : ℚ) : ℚ :=
  if |r| < eps then sentinel else |r⁻¹|

/-- The saturating cast `pos as usize` applied to an `f32` (renderer.rs
line 51): truncation toward zero, negative values saturating to 0.  For
`q ≥ 0` truncation equals `⌊q⌋`, and for `q < 0` the result is 0, which is
`max ⌊q⌋ 0` in both cases. -/
def usizeOfRat (q : ℚ) : ℤ := max ⌊q⌋ 0

/-- Initial `side_dist` on one axis (renderer.rs lines 64–75):
`if ray.abs() < 1e-20 { pos - ipos as f32 } else { ipos as f32 + 1. - pos }`.
Note the branch is selected by the same epsilon test as `delta_dist`,
not by the sign of the ray component. -/
def sideDistInit (r p : ℚ) (ip : ℤ) : ℚ :=
  if |r| < eps then p - (ip : ℚ) else (ip : ℚ) + 1 - p

/-- Modelled from the spec (claim C2's wording, spec §4.1 step 5): the initial
side distance chosen by the *sign* of the ray component — `position − floor`
when the component is negative, `floor + 1 − position` when it is positive.
Used only to exhibit the divergence from `sideDistInit`. -/
def specSideDist (r p : ℚ) : ℚ :=
  if r < 0 then p - (⌊p⌋ : ℚ) else (⌊p⌋ : ℚ) + 1 - p

/-- `ray.signum() as i32` (renderer.rs line 77).  `f32::signum` returns
`1.0` for positive values and `+0.0`, and `-1.0` for negative values and
`-0.0`; `ℚ` has a single zero, mapped to `1`. -/
def fsignum (r : ℚ) : ℤ := if r < 0 then -1 else 1

/-- The camera snapshot passed to `Renderer::render`
(`player_pos`, `facing_dir`, `view_plane`). -/
structure Camera where
  pos : ℚ × ℚ
  dir : ℚ × ℚ
  plane : ℚ × ℚ

/-- The mutable per-column DDA loop state of renderer.rs lines 64–93:
accumulated `side_dist`, the cell index `ipos`, and the `hit` pair
(`side` = hit.1, `mat` = hit.0). -/
structure DDA where
  sdx : ℚ
  sdy : ℚ
  ix : ℤ
  iy : ℤ
  side : Nat
  mat : Nat

/-- One iteration of the loop body before the map lookup (renderer.rs lines
82–90): advance the axis with the strictly smaller accumulated `side_dist`. -/
def ddaStep (dx dy : ℚ) (stx sty : ℤ) (s : DDA) : DDA :=
  if s.sdx < s.sdy then
    ⟨s.sdx + dx, s.sdy, s.ix + stx, s.iy, 0, s.mat⟩
  else
    ⟨s.sdx, s.sdy + dy, s.ix, s.iy + sty, 1, s.mat⟩

/-- The `while hit.0 == 0` loop (renderer.rs lines 81–93) with explicit fuel:
step, look the entered cell up (a failed lookup is the Rust panic), record the
material, and stop as soon as it is nonzero.  `none` means the modelled run
did not complete (panic or fuel exhausted). -/
def ddaRun (dx dy : ℚ) (stx sty : ℤ) : Nat → DDA → Option DDA
  | 0, _ => none
  | fuel + 1, s =>
    let s1 := ddaStep dx dy stx sty s
    match mapAt s1.ix s1.iy with
    | none => none
    | some m =>
      if m = 0 then ddaRun dx dy stx sty fuel ⟨s1.sdx, s1.sdy, s1.ix, s1.iy, s1.side, m⟩
      else some ⟨s1.sdx, s1.sdy, s1.ix, s1.iy, s1.side, m⟩

/-- The per-column hit (spec §3 `Hit`): material, side, perpendicular
distance, and the hit point `pos + side_dist` of renderer.rs line 106. -/
structure Hit where
  mat : Nat
  side : Nat
  dperp : ℚ
  hx : ℚ
  hy : ℚ

/-- The ray of screen column `x` (renderer.rs lines 45–49):
`xcam = 2*(x/800) - 1`, `ray = facing_dir + view_plane * xcam`. -/
def rayOf (cam : Camera) (x : Nat) : ℚ × ℚ :=
  ((cam.dir.1 + cam.plane.1 * (2 * ((x : ℚ) / 800) - 1)),
   (cam.dir.2 + cam.plane.2 * (2 * ((x : ℚ) / 800) - 1)))

/-- The whole per-column raycast of renderer.rs lines 44–111: build the ray,
initialize `delta_dist`, `side_dist`, `step` and `ipos`, run the DDA loop,
then package material, side, the perpendicular distance
(`side_dist - delta_dist` on the last stepped axis, lines 108–111) and the
hit point. -/
def raycast (fuel : Nat) (cam : Camera) (x : Nat) : Option Hit :=
  match ddaRun (deltaDist (rayOf cam x).1) (deltaDist (rayOf cam x).2)
      (fsignum (rayOf cam x).1) (fsignum (rayOf cam x).2) fuel
      ⟨sideDistInit (rayOf cam x).1 cam.pos.1 (usizeOfRat cam.pos.1),
       sideDistInit (rayOf cam x).2 cam.pos.2 (usizeOfRat cam.pos.2),
       usizeOfRat cam.pos.1, usizeOfRat cam.pos.2, 0, 0⟩ with
  | none => none
  | some s =>
    some ⟨s.mat, s.side,
          if s.side = 0 then s.sdx - deltaDist (rayOf cam x).1
          else s.sdy - deltaDist (rayOf cam x).2,
          cam.pos.1 + s.sdx, cam.pos.2 + s.sdy⟩

/-- A camera position "strictly inside the map interior": the occupied
cell is one of the interior cells `[1,13] × [1,13]`. -/
def inInterior (p : ℚ × ℚ) : Prop :=
  1 ≤ p.1 ∧ p.1 < 14 ∧ 1 ≤ p.2 ∧ p.2 < 14

/-- A ray direction none of whose components triggers the epsilon guard. -/
def nondeg (r : ℚ × ℚ) : Prop :=
  eps ≤ |r.1| ∧ eps ≤ |r.2|

instance (p : ℚ × ℚ) : Decidable (inInterior p) := by
  unfold inInterior; infer_instance

instance (r : ℚ × ℚ) : Decidable (nondeg r) := by
  unfold nondeg; infer_instance

/-- The initial camera of `State::new` (main.rs lines 199–201):
position (5,5), facing (−1, 0.1), view plane (0, 0.66). -/
def cam0 : Camera := ⟨(5, 5), (-1, 1 / 10), (0, 33 / 50)⟩

example : usizeOfRat (11 / 2) = 5 := by decide
example : (raycast 30 cam0 0).map Hit.mat = some 1 := by decide
example : (raycast 30 cam0 0).map Hit.dperp = some 5 := by decide

/-- The material → base color table of renderer.rs lines 95–100 (the Rust
`match` with literal arms 1, 2, 3 and a `_` fallback, written as an if
chain), an `0xAABBGGRR`-layout `u32` as the byte extraction of lines
123–127 shows. -/
def baseColor (m : Nat) : Nat :=
  if m = 1 then 0xFF0000FF
  else if m = 2 then 0xFF00FF00
  else if m = 3 then 0xFFFF0000
  else 0xFFFF00FF

/-- The side-1 darkening of renderer.rs lines 101–105:
`br = ((color & 0xFF00FF) * 0xC0) >> 8`, `g = ((color & 0x00FF00) * 0xC0) >> 8`,
`color = 0xFF000000 | (br & 0xFF00FF) | (g & 0x00FF00)`.
All intermediate values stay below `2^32`, so `Nat` models the `u32`
arithmetic exactly. -/
def sideDarken (c : Nat) : Nat :=
  (0xFF000000 : Nat) ||| ((((c &&& 0xFF00FF) * 0xC0) >>> 8) &&& 0xFF00FF) |||
    ((((c &&& 0x00FF00) * 0xC0) >>> 8) &&& 0x00FF00)

/-- The wall color actually written for a hit: the base color, darkened
when `hit.1 == 1` (renderer.rs lines 95–105). -/
def colorOf (m side : Nat) : Nat :=
  if side = 1 then sideDarken (baseColor m) else baseColor m

/-- Byte 0 of a pixel write: `color & 0xFF` (renderer.rs line 127), the R
channel of the `Rgba8UnormSrgb` screen texture. -/
def chR (c : Nat) : Nat := c &&& 0xFF

/-- Byte 1 of a pixel write: `(color & 0x0000FF00) >> 8` (line 126), G. -/
def chG (c : Nat) : Nat := (c &&& 0x0000FF00) >>> 8

/-- Byte 2 of a pixel write: `(color & 0x00FF0000) >> 16` (line 125), B. -/
def chB (c : Nat) : Nat := (c &&& 0x00FF0000) >>> 16

/-- Byte 3 of a pixel write: `(color & 0xFF000000) >> 24` (line 124), A. -/
def chA (c : Nat) : Nat := (c &&& 0xFF000000) >>> 24

/-- The four bytes a wall-color `u32` puts into the buffer, in increasing
byte-index order, i.e. in R,G,B,A order (renderer.rs lines 123–127). -/
def wallBytes (c : Nat) : Nat × Nat × Nat × Nat := (chR c, chG c, chB c, chA c)

/-- The per-channel darkening factor of the `*0xC0>>8` trick (≈0.75). -/
def darken (v : Nat) : Nat := (v * 0xC0) >>> 8

/-- `(600. / dperp) as u32` (renderer.rs line 113) under IEEE `f32` → `u32`
saturating-cast semantics: a non-positive quotient casts to 0, `600/0 = +∞`
saturates to `u32::MAX`, and a positive quotient truncates (floor), saturated
at `u32::MAX`. -/
def hOf (dperp : ℚ) : Nat :=
  if dperp = 0 then 2 ^ 32 - 1
  else if dperp < 0 then 0
  else min (⌊(600 : ℚ) / dperp⌋).toNat (2 ^ 32 - 1)

/-- The strip bounds of renderer.rs lines 114–115:
`y0 = u32::max(300 - (h / 2), 0)` and `y1 = u32::min(300 + (h / 2), 599)`.
The subtraction is `u32` arithmetic, so when `h / 2 > 300` it does not clamp:
a debug build panics on overflow and a release build wraps around to a huge
`y0`, whose ceiling loop then indexes the pixel vector out of bounds and
panics.  Both failure modes are modelled as `none`.  (The `u32::max` with 0
is vacuous on an unsigned value.) -/
def stripBounds (h : Nat) : Option (Nat × Nat) :=
  if 300 < h / 2 then none
  else some (300 - h / 2, min (300 + h / 2) 599)

/-- The frame buffer `pixels: Vec<u8>` viewed as a total map from byte index
to byte value. -/
def Buffer : Type := Nat → Nat

/-- The all-zero buffer `vec![0; size]` of `Renderer::new`. -/
def buf0 : Buffer := fun _ => 0

/-- A single byte store `self.pixels[i] = v`. -/
def setByte (b : Buffer) (i v : Nat) : Buffer :=
  fun j => if j = i then v else b j

/-- One row of a column write: the four byte stores at
`(y * 800 + x) * 4 + 3 .. + 0`, in the order of renderer.rs lines 117–134. -/
def writeRow (x y c3 c2 c1 c0 : Nat) (b : Buffer) : Buffer :=
  setByte (setByte (setByte (setByte b ((y * 800 + x) * 4 + 3) c3)
    ((y * 800 + x) * 4 + 2) c2) ((y * 800 + x) * 4 + 1) c1)
    ((y * 800 + x) * 4 + 0) c0

/-- A `for y in rows` loop writing the same four bytes per row. -/
def fillRows (x : Nat) (ys : List Nat) (c3 c2 c1 c0 : Nat) (b : Buffer) : Buffer :=
  ys.foldl (fun b y => writeRow x y c3 c2 c1 c0 b) b

/-- Everything `render` does for one screen column `x` (renderer.rs lines
44–134): raycast, select and possibly darken the color, project the strip
bounds, then fill ceiling rows `[0, y0)` (bytes 0x20/0x20/0x20/0xFF), wall
rows `y0 ..= y1` (the color's bytes), and floor rows `[y1, 600)` (bytes
0x40/0x40/0x40/0xFF), the floor loop starting at `y1` and overwriting the
wall's last row.  `none` models a panic of the source (see `ddaRun` and
`stripBounds`); the buffer is untouched in that case because the whole
frame is lost anyway. -/
def renderColumn (cam : Camera) (x : Nat) (b : Buffer) : Option Buffer :=
  match raycast 30 cam x with
  | none => none
  | some h =>
    match stripBounds (hOf h.dperp) with
    | none => none
    | some (y0, y1) =>
      let color := colorOf h.mat h.side
      let b1 := fillRows x (List.range y0) 0xFF 0x20 0x20 0x20 b
      let b2 := fillRows x (List.range' y0 (y1 + 1 - y0)) (chA color) (chB color)
        (chG color) (chR color) b1
      some (fillRows x (List.range' y1 (600 - y1)) 0xFF 0x40 0x40 0x40 b2)

/-- The value column `x` leaves at byte index `i` of its own pixels,
independent of the previous buffer contents: a pointwise restatement of the
three fill loops of `renderColumn` (floor wins on row `y1`, which both the
wall and the floor loop write). -/
def byteSel (c0 c1 c2 c3 c : Nat) : Nat :=
  if c = 0 then c0 else if c = 1 then c1 else if c = 2 then c2 else c3

/-- Pointwise description of the bytes `renderColumn cam x` writes: used to
prove the frame condition and commutation of distinct columns. -/
def colVal (cam : Camera) (x i : Nat) : Nat :=
  match raycast 30 cam x with
  | none => 0
  | some h =>
    match stripBounds (hOf h.dperp) with
    | none => 0
    | some (y0, y1) =>
      let color := colorOf h.mat h.side
      let y := i / 4 / 800
      if y1 ≤ y then byteSel 0x40 0x40 0x40 0xFF (i % 4)
      else if y0 ≤ y then byteSel (chR color) (chG color) (chB color) (chA color) (i % 4)
      else byteSel 0x20 0x20 0x20 0xFF (i % 4)

/-- The column loop `for x in xs` of `Renderer::render`, over an explicit
column list; a failing column aborts the whole call (panic). -/
def renderCols (cam : Camera) : List Nat → Buffer → Option Buffer
  | [], b => some b
  | x :: xs, b =>
    match renderColumn cam x b with
    | none => none
    | some b1 => renderCols cam xs b1

/-- `Renderer::render` (renderer.rs lines 38–136): all 800 columns in order. -/
def render (cam : Camera) (b : Buffer) : Option Buffer :=
  renderCols cam (List.range 800) b

/-- A camera that completes a full `render`: position (12.5, 7.5) facing
(1, 0) with view plane (0, 0.66); every column hits the right border wall
after three DDA steps with perpendicular distance 1.5. -/
def cam1 : Camera := ⟨(25 / 2, 15 / 2), (1, 0), (0, 33 / 50)⟩

/-- A camera whose column 400 ray is (0, 1) — degenerate x component — with
the x position exactly on the grid line x = 13: the first DDA step crosses
into the border wall with accumulated and delta distance both `1e30`,
making the perpendicular distance exactly 0. -/
def camBad : Camera := ⟨(13, 11 / 2), (0, 1), (33 / 50, 0)⟩

/-- A camera standing half a tile away from the left border wall and facing
it: column 400 hits with perpendicular distance 0.5, so `h = 1200` and
`300 - h/2` underflows in `u32`. -/
def camC4 : Camera := ⟨(3 / 2, 11 / 2), (-1, 0), (0, 33 / 50)⟩

example : (raycast 30 camBad 400).map Hit.dperp = some 0 := by decide
example : (raycast 30 camC4 400).map Hit.dperp = some (1 / 2) := by decide
example : renderColumn camC4 400 buf0 = none := rfl
example : (renderColumn cam1 0 buf0).isSome = true := by decide

/-- The pieces of `State` relevant to the resize claim (main.rs): the
surface configuration and size fields that `State::resize` updates, and the
renderer's pixel vector, which it does not touch. -/
structure AppState where
  configW : Nat
  configH : Nat
  sizeW : Nat
  sizeH : Nat
  pixels : List Nat

/-- `Renderer::new` (renderer.rs lines 30–36): an all-zero pixel vector of
`screen.width() * screen.height() * 4` bytes. -/
def rendererNew (w h : Nat) : List Nat := List.replicate (w * h * 4) 0

/-- The initial state: the screen texture is created with fixed size
800×600 (main.rs lines 90–103), and the pixel vector is sized from it. -/
def state0 : AppState := ⟨800, 600, 800, 600, rendererNew 800 600⟩

/-- `State::resize` (main.rs lines 260–267): when both new dimensions are
nonzero, store the new size and reconfigure the surface; the renderer and
its pixel vector are not mentioned at all. -/
def resize (s : AppState) (w h : Nat) : AppState :=
  if 0 < w ∧ 0 < h then ⟨w, h, w, h, s.pixels⟩ else s

/-- A camera exhibiting the C2 divergence: position x = 5.25 with a
column-400 ray component `ray.x = -1` (negative, far above the epsilon). -/
def camC2 : Camera := ⟨(21 / 4, 11 / 2), (-1, 1 / 10), (0, 33 / 50)⟩

/-! ### Claim theorems -/

/-- Claim C6 (confirmed): for every ray component of magnitude below the
`1e-20` threshold — zero included — the `delta_dist` computation takes the
guard branch, which contains no division, and yields the `1e30` sentinel. -/
theorem deltaDist_degenerate_sentinel (r : ℚ) (h : |r| < eps) :
    deltaDist r = sentinel := by
  unfold deltaDist
  exact if_pos h

/-- Witness for C6 at the exact-zero component `ray.x == 0`. -/
theorem deltaDist_degenerate_sentinel_witness :
    |(0 : ℚ)| < eps ∧ deltaDist 0 = sentinel :=
  ⟨by decide, deltaDist_degenerate_sentinel 0 (by decide)⟩

/-- Claim C2 (code bug): the initial `side_dist` branch is selected by the
epsilon degeneracy test, not by the sign of the ray component.  At column
400 of `camC2` the ray's x component is exactly −1 (negative and
non-degenerate), yet the code computes `ipos + 1 - pos = 0.75` where the
sign-based rule of the spec gives `pos - floor(pos) = 0.25`. -/
theorem sideDist_sign_divergence :
    (rayOf camC2 400).1 = -1 ∧
    sideDistInit (rayOf camC2 400).1 camC2.pos.1 (usizeOfRat camC2.pos.1) = 3 / 4 ∧
    specSideDist (rayOf camC2 400).1 camC2.pos.1 = 1 / 4 ∧
    sideDistInit (rayOf camC2 400).1 camC2.pos.1 (usizeOfRat camC2.pos.1) ≠
      specSideDist (rayOf camC2 400).1 camC2.pos.1 := by
  decide

/-- Counterexample to claim C3 as stated: material 1's color `0xFF0000FF`
reaches the buffer as bytes (R,G,B,A) = (255,0,0,255) — red, not blue. -/
theorem baseColor_material1_not_blue :
    wallBytes (baseColor 1) = (0xFF, 0, 0, 0xFF) ∧
    wallBytes (baseColor 1) ≠ (0, 0, 0xFF, 0xFF) := by
  decide

/-- Claim C3 (corrected): in R,G,B,A byte order the material table maps
1 → red, 2 → green, 3 → blue, and any other nonzero material → magenta. -/
theorem wall_color_material_mapping (m : Nat) :
    (m = 1 → wallBytes (baseColor m) = (0xFF, 0, 0, 0xFF)) ∧
    (m = 2 → wallBytes (baseColor m) = (0, 0xFF, 0, 0xFF)) ∧
    (m = 3 → wallBytes (baseColor m) = (0, 0, 0xFF, 0xFF)) ∧
    (m ≠ 0 → m ≠ 1 → m ≠ 2 → m ≠ 3 →
      wallBytes (baseColor m) = (0xFF, 0, 0xFF, 0xFF)) := by
  refine ⟨fun h => ?_, fun h => ?_, fun h => ?_, fun h0 h1 h2 h3 => ?_⟩
  · subst h; decide
  · subst h; decide
  · subst h; decide
  · have hb : baseColor m = 0xFFFF00FF := by
      unfold baseColor
      rw [if_neg h1, if_neg h2, if_neg h3]
    unfold wallBytes chR chG chB chA
    rw [hb]
    decide

/-- Witness for C3 at materials 1 and 5. -/
theorem wall_color_material_mapping_witness :
    wallBytes (baseColor 1) = (0xFF, 0, 0, 0xFF) ∧
    wallBytes (baseColor 5) = (0xFF, 0, 0xFF, 0xFF) :=
  ⟨(wall_color_material_mapping 1).1 rfl,
   (wall_color_material_mapping 5).2.2.2 (by decide) (by decide) (by decide) (by decide)⟩

/-- Counterexample to claim C5 as stated: for material 3 with side 1 the
blue channel is *not* left unscaled — it comes out as `0xBF = (0xFF*0xC0)>>8`,
not `0xFF`. -/
theorem sideDarken_blue_scaled_counterexample :
    chB (colorOf 3 1) = 0xBF ∧ chB (baseColor 3) = 0xFF ∧
    chB (colorOf 3 1) ≠ chB (baseColor 3) := by
  decide

/-- Claim C5 (corrected): the side-1 darkening rescales *all three* of
R, G and B by `(c * 0xC0) >> 8` (the `0xFF00FF` mask covers the low R byte
and the third B byte of the `0xAABBGGRR` layout) and forces alpha to 0xFF;
side 0 leaves the base color unchanged. -/
theorem sideDarken_scales_all_channels (m : Nat) :
    colorOf m 0 = baseColor m ∧
    chR (colorOf m 1) = darken (chR (baseColor m)) ∧
    chG (colorOf m 1) = darken (chG (baseColor m)) ∧
    chB (colorOf m 1) = darken (chB (baseColor m)) ∧
    chA (colorOf m 1) = 0xFF := by
  by_cases h1 : m = 1
  · subst h1; decide
  by_cases h2 : m = 2
  · subst h2; decide
  by_cases h3 : m = 3
  · subst h3; decide
  have hb : baseColor m = 0xFFFF00FF := by
    unfold baseColor
    rw [if_neg h1, if_neg h2, if_neg h3]
  unfold colorOf
  rw [hb]
  decide

/-- Counterexample to claim C9 as stated: after `resize` to 100×100 the
pixel vector still has its construction-time length 800·600·4 = 1920000,
not 100·100·4. -/
theorem resize_pixels_length_counterexample :
    (resize state0 100 100).pixels.length ≠ 100 * 100 * 4 := by
  have h1 : (resize state0 100 100).pixels = rendererNew 800 600 := by
    unfold resize
    rw [if_pos (by decide : 0 < 100 ∧ 0 < 100)]
    rfl
  rw [h1]
  unfold rendererNew
  rw [List.length_replicate]
  decide

/-- Claim C9 (corrected): `State::resize` with nonzero dimensions updates
only the stored size and surface configuration and leaves the pixel vector
untouched; the `width*height*4` zero-initialized allocation happens only in
`Renderer::new`. -/
theorem resize_preserves_pixels (s : AppState) (w h : Nat) (hw : 0 < w) (hh : 0 < h) :
    (resize s w h).pixels = s.pixels ∧ (resize s w h).configW = w ∧
    (resize s w h).configH = h ∧ (rendererNew w h).length = w * h * 4 := by
  unfold resize rendererNew
  rw [if_pos ⟨hw, hh⟩]
  exact ⟨rfl, rfl, rfl, List.length_replicate _ _⟩

/-- Witness for C9 at a 100×100 resize of the initial state. -/
theorem resize_preserves_pixels_witness :
    (resize state0 100 100).pixels = state0.pixels ∧
    (resize state0 100 100).configW = 100 ∧
    (resize state0 100 100).configH = 100 ∧
    (rendererNew 100 100).length = 100 * 100 * 4 :=
  resize_preserves_pixels state0 100 100 (by decide) (by decide)

/-- Claim C4 (code bug): a camera half a tile from a wall is an interior
camera whose column-400 hit has perpendicular distance 0.5 < 1, giving
`h = 1200` and `h/2 = 600 > 300`; the `u32` computation `300 - h/2` then
underflows instead of clamping (debug: subtraction-overflow panic; release:
wrapped huge `y0` and an out-of-bounds pixel write), modelled as the column
failing. -/
theorem strip_bounds_underflow_eval :
    inInterior camC4.pos ∧
    (raycast 30 camC4 400).map Hit.dperp = some (1 / 2) ∧
    hOf (1 / 2) = 1200 ∧ 300 < 1200 / 2 ∧ stripBounds 1200 = none ∧
    renderColumn camC4 400 buf0 = none := by
  refine ⟨by decide, by decide, by decide, by decide, by decide, rfl⟩

/-- Counterexample to claim C7 as stated: `camBad` is strictly inside the
interior, yet the column-400 hit (degenerate x ray component, camera x
exactly on a grid line) has perpendicular distance exactly 0. -/
theorem dperp_zero_counterexample :
    inInterior camBad.pos ∧ (raycast 30 camBad 400).map Hit.dperp = some 0 := by
  decide

/-! ### DDA termination and positivity lemmas -/

lemma ddaRun_zero (dx dy : ℚ) (stx sty : ℤ) (s : DDA) :
    ddaRun dx dy stx sty 0 s = none := rfl

lemma ddaRun_succ (dx dy : ℚ) (stx sty : ℤ) (fuel : Nat) (s : DDA) :
    ddaRun dx dy stx sty (fuel + 1) s =
      match mapAt (ddaStep dx dy stx sty s).ix (ddaStep dx dy stx sty s).iy with
      | none => none
      | some m =>
        if m = 0 then
          ddaRun dx dy stx sty fuel
            ⟨(ddaStep dx dy stx sty s).sdx, (ddaStep dx dy stx sty s).sdy,
             (ddaStep dx dy stx sty s).ix, (ddaStep dx dy stx sty s).iy,
             (ddaStep dx dy stx sty s).side, m⟩
        else
          some ⟨(ddaStep dx dy stx sty s).sdx, (ddaStep dx dy stx sty s).sdy,
                (ddaStep dx dy stx sty s).ix, (ddaStep dx dy stx sty s).iy,
                (ddaStep dx dy stx sty s).side, m⟩ := rfl

lemma ddaStep_lt (dx dy : ℚ) (stx sty : ℤ) (s : DDA) (h : s.sdx < s.sdy) :
    ddaStep dx dy stx sty s = ⟨s.sdx + dx, s.sdy, s.ix + stx, s.iy, 0, s.mat⟩ := by
  unfold ddaStep
  rw [if_pos h]

lemma ddaStep_ge (dx dy : ℚ) (stx sty : ℤ) (s : DDA) (h : ¬s.sdx < s.sdy) :
    ddaStep dx dy stx sty s = ⟨s.sdx, s.sdy + dy, s.ix, s.iy + sty, 1, s.mat⟩ := by
  unfold ddaStep
  rw [if_neg h]

/-- Every empty in-range cell of the map is an interior cell: the border is
entirely solid.  Checked cell by cell on `mapData`. -/
lemma map_empty_interior : ∀ a : Nat, a < 15 → ∀ b : Nat, b < 15 →
    mapData.getD (b * 15 + a) 0 = 0 → 1 ≤ a ∧ a ≤ 13 ∧ 1 ≤ b ∧ b ≤ 13 := by
  decide

lemma mapAt_some (ix iy : ℤ) (hx0 : 0 ≤ ix) (hx1 : ix ≤ 14) (hy0 : 0 ≤ iy) (hy1 : iy ≤ 14) :
    mapAt ix iy = some (mapData.getD (iy * 15 + ix).toNat 0) := by
  unfold mapAt
  rw [if_pos ⟨hx0, hy0, by omega⟩]

lemma mapAt_empty_interior (ix iy : ℤ) (hx0 : 0 ≤ ix) (hx1 : ix ≤ 14)
    (hy0 : 0 ≤ iy) (hy1 : iy ≤ 14)
    (hm : mapData.getD (iy * 15 + ix).toNat 0 = 0) :
    1 ≤ ix ∧ ix ≤ 13 ∧ 1 ≤ iy ∧ iy ≤ 13 := by
  have e : (iy * 15 + ix).toNat = iy.toNat * 15 + ix.toNat := by omega
  rw [e] at hm
  have h := map_empty_interior ix.toNat (by omega) iy.toNat (by omega) hm
  omega

/-- The termination measure: how many steps each axis can still take before
its cell coordinate reaches the border row/column it is moving towards. -/
def muDDA (stx sty : ℤ) (s : DDA) : ℤ :=
  (if stx = 1 then 14 - s.ix else s.ix) + (if sty = 1 then 14 - s.iy else s.iy)

/-- Core termination argument: from an interior cell, with step components
±1, the DDA loop reaches a nonzero cell before the measure runs out —
each iteration moves one coordinate monotonically towards a border, and
border cells are solid. -/
lemma ddaRun_terminates (dx dy : ℚ) (stx sty : ℤ)
    (hstx : stx = 1 ∨ stx = -1) (hsty : sty = 1 ∨ sty = -1) :
    ∀ (fuel : Nat) (s : DDA), 1 ≤ s.ix → s.ix ≤ 13 → 1 ≤ s.iy → s.iy ≤ 13 →
      muDDA stx sty s ≤ (fuel : ℤ) →
      ∃ s2, ddaRun dx dy stx sty fuel s = some s2 ∧ s2.mat ≠ 0 := by
  intro fuel
  induction fuel with
  | zero =>
    intro s h1 h2 h3 h4 hm
    exfalso
    unfold muDDA at hm
    rcases hstx with rfl | rfl <;> rcases hsty with rfl | rfl <;> simp at hm <;> omega
  | succ n ih =>
    intro s h1 h2 h3 h4 hm
    rw [ddaRun_succ]
    by_cases hlt : s.sdx < s.sdy
    · rw [ddaStep_lt dx dy stx sty s hlt]
      dsimp only
      have hbx : 0 ≤ s.ix + stx ∧ s.ix + stx ≤ 14 := by
        rcases hstx with rfl | rfl <;> omega
      rw [mapAt_some (s.ix + stx) s.iy hbx.1 hbx.2 (by omega) (by omega)]
      dsimp only
      by_cases hm0 : mapData.getD (s.iy * 15 + (s.ix + stx)).toNat 0 = 0
      · rw [if_pos hm0]
        have hint := mapAt_empty_interior (s.ix + stx) s.iy hbx.1 hbx.2
          (by omega) (by omega) hm0
        refine ih ⟨s.sdx + dx, s.sdy, s.ix + stx, s.iy, 0, _⟩
          hint.1 hint.2.1 hint.2.2.1 hint.2.2.2 ?_
        unfold muDDA at hm ⊢
        dsimp only
        rcases hstx with rfl | rfl <;> rcases hsty with rfl | rfl <;> simp at hm ⊢ <;> omega
      · rw [if_neg hm0]
        exact ⟨_, rfl, hm0⟩
    · rw [ddaStep_ge dx dy stx sty s hlt]
      dsimp only
      have hby : 0 ≤ s.iy + sty ∧ s.iy + sty ≤ 14 := by
        rcases hsty with rfl | rfl <;> omega
      rw [mapAt_some s.ix (s.iy + sty) (by omega) (by omega) hby.1 hby.2]
      dsimp only
      by_cases hm0 : mapData.getD ((s.iy + sty) * 15 + s.ix).toNat 0 = 0
      · rw [if_pos hm0]
        have hint := mapAt_empty_interior s.ix (s.iy + sty) (by omega) (by omega)
          hby.1 hby.2 hm0
        refine ih ⟨s.sdx, s.sdy + dy, s.ix, s.iy + sty, 1, _⟩
          hint.1 hint.2.1 hint.2.2.1 hint.2.2.2 ?_
        unfold muDDA at hm ⊢
        dsimp only
        rcases hstx with rfl | rfl <;> rcases hsty with rfl | rfl <;> simp at hm ⊢ <;> omega
      · rw [if_neg hm0]
        exact ⟨_, rfl, hm0⟩

lemma fsignum_cases (r : ℚ) : fsignum r = 1 ∨ fsignum r = -1 := by
  unfold fsignum
  split_ifs
  · exact Or.inr rfl
  · exact Or.inl rfl

lemma usizeOfRat_interval (p : ℚ) (h1 : 1 ≤ p) (h2 : p < 14) :
    1 ≤ usizeOfRat p ∧ usizeOfRat p ≤ 13 := by
  unfold usizeOfRat
  have hf1 : (1 : ℤ) ≤ ⌊p⌋ := Int.le_floor.mpr (by exact_mod_cast h1)
  have hf2 : ⌊p⌋ < 14 := Int.floor_lt.mpr (by exact_mod_cast h2)
  rw [max_eq_left (by omega)]
  omega

/-- Claim C1 (confirmed): for every column and every camera strictly inside
the map interior with a non-degenerate ray, the fueled DDA loop completes
within `map_width + map_height = 30` iterations with a nonzero material.
(The solid border of `mapData` is what stops the traversal; see
`map_empty_interior`.) -/
theorem raycast_terminates_interior (cam : Camera) (x : Nat) (hx : x < 800)
    (hpos : inInterior cam.pos) (hray : nondeg (rayOf cam x)) :
    ∃ h, raycast 30 cam x = some h ∧ h.mat ≠ 0 := by
  obtain ⟨hp1, hp2, hp3, hp4⟩ := hpos
  have hix := usizeOfRat_interval cam.pos.1 hp1 hp2
  have hiy := usizeOfRat_interval cam.pos.2 hp3 hp4
  have hstx := fsignum_cases (rayOf cam x).1
  have hsty := fsignum_cases (rayOf cam x).2
  have hmu : muDDA (fsignum (rayOf cam x).1) (fsignum (rayOf cam x).2)
      ⟨sideDistInit (rayOf cam x).1 cam.pos.1 (usizeOfRat cam.pos.1),
       sideDistInit (rayOf cam x).2 cam.pos.2 (usizeOfRat cam.pos.2),
       usizeOfRat cam.pos.1, usizeOfRat cam.pos.2, 0, 0⟩ ≤ ((30 : Nat) : ℤ) := by
    unfold muDDA
    dsimp only
    rcases hstx with h | h <;> rcases hsty with h2 | h2 <;> rw [h, h2] <;> simp <;> omega
  obtain ⟨s2, hrun, hmat⟩ :=
    ddaRun_terminates (deltaDist (rayOf cam x).1) (deltaDist (rayOf cam x).2)
      (fsignum (rayOf cam x).1) (fsignum (rayOf cam x).2) hstx hsty 30
      ⟨sideDistInit (rayOf cam x).1 cam.pos.1 (usizeOfRat cam.pos.1),
       sideDistInit (rayOf cam x).2 cam.pos.2 (usizeOfRat cam.pos.2),
       usizeOfRat cam.pos.1, usizeOfRat cam.pos.2, 0, 0⟩
      hix.1 hix.2 hiy.1 hiy.2 hmu
  refine ⟨⟨s2.mat, s2.side,
    if s2.side = 0 then s2.sdx - deltaDist (rayOf cam x).1
    else s2.sdy - deltaDist (rayOf cam x).2,
    cam.pos.1 + s2.sdx, cam.pos.2 + s2.sdy⟩, ?_, hmat⟩
  unfold raycast
  rw [hrun]

/-- Witness for C1 at the initial camera of `State::new`, column 0. -/
theorem raycast_terminates_interior_witness :
    ∃ h, raycast 30 cam0 0 = some h ∧ h.mat ≠ 0 :=
  raycast_terminates_interior cam0 0 (by decide) (by decide) (by decide)

/-- The accumulated `side_dist` on the axis last stepped, just before its
final increment, never drops below its initial value: the deltas only add. -/
lemma ddaRun_dperp_lower (dx dy : ℚ) (stx sty : ℤ) (hdx : 0 ≤ dx) (hdy : 0 ≤ dy) :
    ∀ (fuel : Nat) (s s2 : DDA) (a b : ℚ), a ≤ s.sdx → b ≤ s.sdy →
      ddaRun dx dy stx sty fuel s = some s2 →
      (if s2.side = 0 then a ≤ s2.sdx - dx else b ≤ s2.sdy - dy) := by
  intro fuel
  induction fuel with
  | zero =>
    intro s s2 a b ha hb h
    rw [ddaRun_zero] at h
    exact Option.noConfusion h
  | succ n ih =>
    intro s s2 a b ha hb h
    rw [ddaRun_succ] at h
    by_cases hlt : s.sdx < s.sdy
    · rw [ddaStep_lt dx dy stx sty s hlt] at h
      dsimp only at h
      cases hmap : mapAt (s.ix + stx) s.iy with
      | none => rw [hmap] at h; exact Option.noConfusion h
      | some m =>
        rw [hmap] at h
        dsimp only at h
        by_cases hm0 : m = 0
        · rw [if_pos hm0] at h
          exact ih ⟨s.sdx + dx, s.sdy, s.ix + stx, s.iy, 0, m⟩ s2 a b
            (by dsimp only; linarith) (by dsimp only; exact hb) h
        · rw [if_neg hm0] at h
          cases Option.some.inj h
          dsimp only
          rw [if_pos rfl]
          linarith
    · rw [ddaStep_ge dx dy stx sty s hlt] at h
      dsimp only at h
      cases hmap : mapAt s.ix (s.iy + sty) with
      | none => rw [hmap] at h; exact Option.noConfusion h
      | some m =>
        rw [hmap] at h
        dsimp only at h
        by_cases hm0 : m = 0
        · rw [if_pos hm0] at h
          exact ih ⟨s.sdx, s.sdy + dy, s.ix, s.iy + sty, 1, m⟩ s2 a b
            (by dsimp only; exact ha) (by dsimp only; linarith) h
        · rw [if_neg hm0] at h
          cases Option.some.inj h
          dsimp only
          rw [if_neg (by decide : ¬(1 : Nat) = 0)]
          linarith

lemma sideDistInit_nonneg (r p : ℚ) (hp : 1 ≤ p) :
    0 ≤ sideDistInit r p (usizeOfRat p) := by
  unfold sideDistInit usizeOfRat
  have hf1 : (1 : ℤ) ≤ ⌊p⌋ := Int.le_floor.mpr (by exact_mod_cast hp)
  rw [max_eq_left (by omega)]
  have hfl := Int.lt_floor_add_one p
  have hfle := Int.floor_le p
  split_ifs
  · linarith
  · linarith

lemma deltaDist_nonneg (r : ℚ) : 0 ≤ deltaDist r := by
  unfold deltaDist
  split_ifs
  · norm_num [sentinel]
  · exact abs_nonneg _

/-- Claim C7 (corrected): for every column and every camera strictly inside
the map interior, the perpendicular distance of a completed raycast is
*nonnegative*; strict positivity is false (see `dperp_zero_counterexample`,
and in the float program even non-degenerate rays reach 0 when the final
`side_dist += delta_dist` is absorbed, e.g. `1.0 + 2^33 = 2^33` in `f32`).

Nonnegativity, unlike strict positivity, transfers to the `f32` program:
the proof only uses that the initial side distances are ≥ 0 (interior
position), that the deltas are ≥ 0, and that the final pre-increment
accumulated value satisfies `side_dist - delta_dist ≥ 0` because
`side_dist = pre + delta ≥ delta` — and each of these inequalities is
preserved by IEEE rounding, which is monotone (`fl(pre + d) ≥ fl(d) = d`
for representable `d`, and `fl(x - d) ≥ 0` whenever `x ≥ d`), with all
intermediate values finite for the cameras the claim covers. -/
theorem dperp_nonneg (cam : Camera) (x : Nat) (h : Hit) (hx : x < 800)
    (hpos : inInterior cam.pos) (hrc : raycast 30 cam x = some h) :
    0 ≤ h.dperp := by
  obtain ⟨hp1, hp2, hp3, hp4⟩ := hpos
  unfold raycast at hrc
  cases hrun : ddaRun (deltaDist (rayOf cam x).1) (deltaDist (rayOf cam x).2)
      (fsignum (rayOf cam x).1) (fsignum (rayOf cam x).2) 30
      ⟨sideDistInit (rayOf cam x).1 cam.pos.1 (usizeOfRat cam.pos.1),
       sideDistInit (rayOf cam x).2 cam.pos.2 (usizeOfRat cam.pos.2),
       usizeOfRat cam.pos.1, usizeOfRat cam.pos.2, 0, 0⟩ with
  | none =>
    rw [hrun] at hrc
    exact Option.noConfusion hrc
  | some s2 =>
    rw [hrun] at hrc
    cases Option.some.inj hrc
    have hsd1 := sideDistInit_nonneg (rayOf cam x).1 cam.pos.1 hp1
    have hsd2 := sideDistInit_nonneg (rayOf cam x).2 cam.pos.2 hp3
    have hlow := ddaRun_dperp_lower (deltaDist (rayOf cam x).1) (deltaDist (rayOf cam x).2)
      (fsignum (rayOf cam x).1) (fsignum (rayOf cam x).2)
      (deltaDist_nonneg (rayOf cam x).1) (deltaDist_nonneg (rayOf cam x).2) 30
      ⟨sideDistInit (rayOf cam x).1 cam.pos.1 (usizeOfRat cam.pos.1),
       sideDistInit (rayOf cam x).2 cam.pos.2 (usizeOfRat cam.pos.2),
       usizeOfRat cam.pos.1, usizeOfRat cam.pos.2, 0, 0⟩ s2 0 0 hsd1 hsd2 hrun
    dsimp only
    by_cases hside : s2.side = 0
    · rw [if_pos hside] at hlow ⊢
      linarith
    · rw [if_neg hside] at hlow ⊢
      linarith

/-- Witness for C7 at the initial camera of `State::new`, column 0. -/
theorem dperp_nonneg_witness :
    ∃ h, raycast 30 cam0 0 = some h ∧ 0 ≤ h.dperp := by
  cases hr : raycast 30 cam0 0 with
  | none =>
    have hs : (raycast 30 cam0 0).isSome = true := by decide
    rw [hr] at hs
    simp at hs
  | some h =>
    exact ⟨h, rfl, dperp_nonneg cam0 0 h (by decide) (by decide) hr⟩

/-! ### Pointwise characterization of the column writes -/

lemma writeRow_apply (x y c3 c2 c1 c0 : Nat) (b : Buffer) (i : Nat) :
    writeRow x y c3 c2 c1 c0 b i =
      if i / 4 = y * 800 + x then byteSel c0 c1 c2 c3 (i % 4) else b i := by
  unfold writeRow setByte byteSel
  split_ifs <;> omega

lemma fillRows_apply (x : Nat) (hx : x < 800) (ys : List Nat) (c3 c2 c1 c0 : Nat)
    (b : Buffer) (i : Nat) :
    fillRows x ys c3 c2 c1 c0 b i =
      if (i / 4) % 800 = x ∧ i / 4 / 800 ∈ ys then byteSel c0 c1 c2 c3 (i % 4)
      else b i := by
  induction ys generalizing b with
  | nil => simp [fillRows]
  | cons y ys ih =>
    have hstep : fillRows x (y :: ys) c3 c2 c1 c0 b
        = fillRows x ys c3 c2 c1 c0 (writeRow x y c3 c2 c1 c0 b) := rfl
    rw [hstep, ih, writeRow_apply]
    by_cases h1 : (i / 4) % 800 = x
    · by_cases h2 : i / 4 / 800 ∈ ys
      · rw [if_pos ⟨h1, h2⟩, if_pos ⟨h1, List.mem_cons_of_mem y h2⟩]
      · rw [if_neg (fun hc => h2 hc.2)]
        by_cases h3 : i / 4 / 800 = y
        · have hi : i / 4 = y * 800 + x := by omega
          rw [if_pos hi, if_pos ⟨h1, by rw [h3]; exact List.mem_cons_self y ys⟩]
        · have hi : i / 4 ≠ y * 800 + x := by omega
          rw [if_neg hi, if_neg ?_]
          rintro ⟨-, hmem⟩
          rcases List.mem_cons.mp hmem with h | h
          · exact h3 h
          · exact h2 h
    · have hi : i / 4 ≠ y * 800 + x := by omega
      rw [if_neg hi, if_neg (fun hc => h1 hc.1), if_neg (fun hc => h1 hc.1)]

lemma stripBounds_bounds (h y0 y1 : Nat) (hsb : stripBounds h = some (y0, y1)) :
    y0 ≤ 300 ∧ 300 ≤ y1 ∧ y1 ≤ 599 := by
  unfold stripBounds at hsb
  by_cases hc : 300 < h / 2
  · rw [if_pos hc] at hsb
    exact Option.noConfusion hsb
  · rw [if_neg hc] at hsb
    injection Option.some.inj hsb with h1 h2
    omega

lemma renderColumn_eq_none_left (cam : Camera) (x : Nat) (b : Buffer)
    (hr : raycast 30 cam x = none) : renderColumn cam x b = none := by
  unfold renderColumn
  rw [hr]

lemma renderColumn_eq_none_strip (cam : Camera) (x : Nat) (b : Buffer) (h : Hit)
    (hr : raycast 30 cam x = some h) (hs : stripBounds (hOf h.dperp) = none) :
    renderColumn cam x b = none := by
  unfold renderColumn
  rw [hr]
  dsimp only
  rw [hs]

lemma renderColumn_eq_some (cam : Camera) (x : Nat) (b : Buffer) (h : Hit) (y0 y1 : Nat)
    (hr : raycast 30 cam x = some h) (hs : stripBounds (hOf h.dperp) = some (y0, y1)) :
    renderColumn cam x b =
      some (fillRows x (List.range' y1 (600 - y1)) 0xFF 0x40 0x40 0x40
        (fillRows x (List.range' y0 (y1 + 1 - y0)) (chA (colorOf h.mat h.side))
          (chB (colorOf h.mat h.side)) (chG (colorOf h.mat h.side))
          (chR (colorOf h.mat h.side))
          (fillRows x (List.range y0) 0xFF 0x20 0x20 0x20 b))) := by
  unfold renderColumn
  rw [hr]
  dsimp only
  rw [hs]

lemma colVal_eq (cam : Camera) (x i : Nat) (h : Hit) (y0 y1 : Nat)
    (hr : raycast 30 cam x = some h) (hs : stripBounds (hOf h.dperp) = some (y0, y1)) :
    colVal cam x i =
      if y1 ≤ i / 4 / 800 then byteSel 0x40 0x40 0x40 0xFF (i % 4)
      else if y0 ≤ i / 4 / 800 then
        byteSel (chR (colorOf h.mat h.side)) (chG (colorOf h.mat h.side))
          (chB (colorOf h.mat h.side)) (chA (colorOf h.mat h.side)) (i % 4)
      else byteSel 0x20 0x20 0x20 0xFF (i % 4) := by
  unfold colVal
  rw [hr]
  dsimp only
  rw [hs]

/-- The buffer a completed column write leaves behind, pointwise: the
column's own bytes (rows below 600) get `colVal`, everything else keeps its
previous value. -/
lemma renderColumn_apply (cam : Camera) (x : Nat) (hx : x < 800) (b out : Buffer)
    (hro : renderColumn cam x b = some out) (i : Nat) :
    out i = if (i / 4) % 800 = x ∧ i / 4 / 800 < 600 then colVal cam x i else b i := by
  cases hr : raycast 30 cam x with
  | none =>
    rw [renderColumn_eq_none_left cam x b hr] at hro
    exact Option.noConfusion hro
  | some h =>
    cases hs : stripBounds (hOf h.dperp) with
    | none =>
      rw [renderColumn_eq_none_strip cam x b h hr hs] at hro
      exact Option.noConfusion hro
    | some p =>
      obtain ⟨y0, y1⟩ := p
      rw [renderColumn_eq_some cam x b h y0 y1 hr hs] at hro
      cases Option.some.inj hro
      obtain ⟨hb0, hb1, hb2⟩ := stripBounds_bounds (hOf h.dperp) y0 y1 hs
      rw [colVal_eq cam x i h y0 y1 hr hs]
      rw [fillRows_apply x hx, fillRows_apply x hx, fillRows_apply x hx]
      by_cases h1 : (i / 4) % 800 = x
      · simp only [h1, true_and, List.mem_range'_1, List.mem_range]
        split_ifs <;> first | rfl | omega
      · rw [if_neg (fun hc => h1 hc.1), if_neg (fun hc => h1 hc.1),
          if_neg (fun hc => h1 hc.1), if_neg (fun hc => h1 hc.1)]

lemma baseColor_cases (m : Nat) :
    baseColor m = 0xFF0000FF ∨ baseColor m = 0xFF00FF00 ∨
    baseColor m = 0xFFFF0000 ∨ baseColor m = 0xFFFF00FF := by
  unfold baseColor
  split_ifs <;> simp

lemma colorOf_alpha (m sd : Nat) : chA (colorOf m sd) = 0xFF := by
  unfold colorOf
  rcases baseColor_cases m with h | h | h | h <;> rw [h] <;> split_ifs <;> decide

lemma renderColumn_none_any (cam : Camera) (x : Nat) (b b2 : Buffer)
    (h : renderColumn cam x b = none) : renderColumn cam x b2 = none := by
  cases hr : raycast 30 cam x with
  | none => exact renderColumn_eq_none_left cam x b2 hr
  | some hh =>
    cases hs : stripBounds (hOf hh.dperp) with
    | none => exact renderColumn_eq_none_strip cam x b2 hh hr hs
    | some p =>
      obtain ⟨y0, y1⟩ := p
      rw [renderColumn_eq_some cam x b hh y0 y1 hr hs] at h
      exact Option.noConfusion h

/-- Writes of two distinct columns land on disjoint byte indices and read
nothing from the buffer, so the two column passes commute. -/
lemma renderColumn_comm (cam : Camera) (xa xb : Nat) (ha : xa < 800) (hb : xb < 800)
    (b : Buffer) :
    (renderColumn cam xa b).bind (renderColumn cam xb) =
      (renderColumn cam xb b).bind (renderColumn cam xa) := by
  by_cases hab : xa = xb
  · subst hab; rfl
  cases h1 : renderColumn cam xa b with
  | none =>
    cases h2 : renderColumn cam xb b with
    | none => rfl
    | some o2 =>
      simp only [Option.none_bind, Option.some_bind]
      exact (renderColumn_none_any cam xa b o2 h1).symm
  | some o1 =>
    cases h2 : renderColumn cam xb b with
    | none =>
      simp only [Option.none_bind, Option.some_bind]
      exact renderColumn_none_any cam xb b o1 h2
    | some o2 =>
      simp only [Option.some_bind]
      cases h12 : renderColumn cam xb o1 with
      | none =>
        have hc := renderColumn_none_any cam xb o1 b h12
        rw [h2] at hc
        exact Option.noConfusion hc
      | some o12 =>
        cases h21 : renderColumn cam xa o2 with
        | none =>
          have hc := renderColumn_none_any cam xa o2 b h21
          rw [h1] at hc
          exact Option.noConfusion hc
        | some o21 =>
          congr 1
          funext i
          rw [renderColumn_apply cam xb hb o1 o12 h12 i,
              renderColumn_apply cam xa ha b o1 h1 i,
              renderColumn_apply cam xa ha o2 o21 h21 i,
              renderColumn_apply cam xb hb b o2 h2 i]
          split_ifs <;> first | rfl | omega

lemma renderCols_cons (cam : Camera) (x : Nat) (xs : List Nat) (b : Buffer) :
    renderCols cam (x :: xs) b =
      match renderColumn cam x b with
      | none => none
      | some b1 => renderCols cam xs b1 := rfl

lemma renderCols_two (cam : Camera) (a c : Nat) (l : List Nat) (b : Buffer) :
    renderCols cam (a :: c :: l) b =
      match (renderColumn cam a b).bind (renderColumn cam c) with
      | none => none
      | some b2 => renderCols cam l b2 := by
  rw [renderCols_cons]
  cases h1 : renderColumn cam a b with
  | none => rfl
  | some b1 => rfl

/-- Column passes over a list of valid columns can be permuted freely. -/
lemma renderCols_perm (cam : Camera) : ∀ {xs ys : List Nat}, xs.Perm ys →
    (∀ z ∈ xs, z < 800) → ∀ b, renderCols cam xs b = renderCols cam ys b := by
  intro xs ys hp
  induction hp with
  | nil => intro _ b; rfl
  | cons z hperm ih =>
    intro hmem b
    rw [renderCols_cons, renderCols_cons]
    cases hz : renderColumn cam z b with
    | none => rfl
    | some b1 =>
      dsimp only
      exact ih (fun w hw => hmem w (List.mem_cons_of_mem z hw)) b1
  | swap p q l =>
    intro hmem b
    rw [renderCols_two, renderCols_two,
      renderColumn_comm cam q p (hmem q (by simp)) (hmem p (by simp)) b]
  | trans h1 h2 ih1 ih2 =>
    intro hmem b
    rw [ih1 hmem b, ih2 (fun z hz => hmem z (h1.mem_iff.mpr hz)) b]

/-- Bytes belonging to no column of `xs` survive a `renderCols` pass. -/
lemma renderCols_frame (cam : Camera) : ∀ (xs : List Nat), (∀ z ∈ xs, z < 800) →
    ∀ b out, renderCols cam xs b = some out →
    ∀ i, (∀ z ∈ xs, ¬((i / 4) % 800 = z ∧ i / 4 / 800 < 600)) → out i = b i := by
  intro xs
  induction xs with
  | nil =>
    intro _ b out h i _
    cases Option.some.inj h
    rfl
  | cons z xs ih =>
    intro hmem b out h i hz
    rw [renderCols_cons] at h
    cases h1 : renderColumn cam z b with
    | none =>
      rw [h1] at h
      exact Option.noConfusion h
    | some b1 =>
      rw [h1] at h
      dsimp only at h
      rw [ih (fun w hw => hmem w (List.mem_cons_of_mem z hw)) b1 out h i
        (fun w hw => hz w (List.mem_cons_of_mem z hw))]
      rw [renderColumn_apply cam z (hmem z (List.mem_cons_self z xs)) b b1 h1 i,
        if_neg (hz z (List.mem_cons_self z xs))]

/-- A completed column sets the alpha byte of each of its 600 pixels. -/
lemma byteSel_three (c0 c1 c2 c3 : Nat) : byteSel c0 c1 c2 c3 3 = c3 := rfl

lemma renderColumn_alpha (cam : Camera) (x : Nat) (hx : x < 800) (b out : Buffer)
    (h : renderColumn cam x b = some out) (y : Nat) (hy : y < 600) :
    out ((y * 800 + x) * 4 + 3) = 0xFF := by
  rw [renderColumn_apply cam x hx b out h ((y * 800 + x) * 4 + 3)]
  have hcol : (((y * 800 + x) * 4 + 3) / 4) % 800 = x := by omega
  have hrow : ((y * 800 + x) * 4 + 3) / 4 / 800 = y := by omega
  rw [if_pos ⟨hcol, by omega⟩]
  cases hr : raycast 30 cam x with
  | none =>
    rw [renderColumn_eq_none_left cam x b hr] at h
    exact Option.noConfusion h
  | some hh =>
    cases hs : stripBounds (hOf hh.dperp) with
    | none =>
      rw [renderColumn_eq_none_strip cam x b hh hr hs] at h
      exact Option.noConfusion h
    | some p =>
      obtain ⟨y0, y1⟩ := p
      rw [colVal_eq cam x ((y * 800 + x) * 4 + 3) hh y0 y1 hr hs]
      have hmod : ((y * 800 + x) * 4 + 3) % 4 = 3 := by omega
      rw [hmod, byteSel_three, byteSel_three, byteSel_three]
      have hA := colorOf_alpha hh.mat hh.side
      split_ifs <;> first | rfl | exact hA

/-- Every column of a completed pass over distinct valid columns has all
its alpha bytes set. -/
lemma renderCols_alpha (cam : Camera) : ∀ (xs : List Nat), xs.Nodup →
    (∀ z ∈ xs, z < 800) → ∀ b out, renderCols cam xs b = some out →
    ∀ x ∈ xs, ∀ y, y < 600 → out ((y * 800 + x) * 4 + 3) = 0xFF := by
  intro xs
  induction xs with
  | nil =>
    intro _ _ b out _ x hx
    exact absurd hx (List.not_mem_nil x)
  | cons z xs ih =>
    intro hnd hmem b out h x hx y hy
    rw [renderCols_cons] at h
    cases h1 : renderColumn cam z b with
    | none =>
      rw [h1] at h
      exact Option.noConfusion h
    | some b1 =>
      rw [h1] at h
      dsimp only at h
      rcases List.mem_cons.mp hx with rfl | hx2
      · have hx800 := hmem x (List.mem_cons_self x xs)
        have halpha := renderColumn_alpha cam x hx800 b b1 h1 y hy
        rw [renderCols_frame cam xs (fun w hw => hmem w (List.mem_cons_of_mem x hw)) b1 out h
          ((y * 800 + x) * 4 + 3) ?_]
        · exact halpha
        · intro w hw hcontra
          have hwx : w = x := by omega
          subst hwx
          exact (List.nodup_cons.mp hnd).1 hw
      · exact ih (List.nodup_cons.mp hnd).2
          (fun w hw => hmem w (List.mem_cons_of_mem z hw)) b1 out h x hx2 y hy

/-- Claim C8 (confirmed): a completed column-x pass changes no byte outside
the indices `(y*800+x)*4 + c` of its own column (and reads none: the written
values do not depend on the previous buffer), and passes over any two
permuted lists of valid columns — in particular any rendering order of the
800 columns — produce the same buffer. -/
theorem renderColumn_frame_and_comm (cam : Camera) (x : Nat) (b out : Buffer)
    (hx : x < 800) (h : renderColumn cam x b = some out) :
    (∀ i : Nat, (∀ y c : Nat, y < 600 → c < 4 → i ≠ (y * 800 + x) * 4 + c) → out i = b i) ∧
    (∀ xs ys : List Nat, (∀ z ∈ xs, z < 800) → xs.Perm ys →
      ∀ b2, renderCols cam xs b2 = renderCols cam ys b2) := by
  constructor
  · intro i hi
    rw [renderColumn_apply cam x hx b out h i, if_neg ?_]
    rintro ⟨h1, h2⟩
    exact hi (i / 4 / 800) (i % 4) h2 (by omega) (by omega)
  · intro xs ys hxs hp b2
    exact renderCols_perm cam hp hxs b2

/-- Witness for C8: a concrete completed column-0 pass leaves byte 4 (a
column-1 byte) untouched, and rendering columns 1,2 in either order gives
the same buffer. -/
theorem renderColumn_frame_and_comm_witness :
    ((renderColumn cam1 0 buf0).getD buf0) 4 = 0 ∧
    renderCols cam1 [1, 2] buf0 = renderCols cam1 [2, 1] buf0 := by
  cases hr : renderColumn cam1 0 buf0 with
  | none =>
    have hs : (renderColumn cam1 0 buf0).isSome = true := by decide
    rw [hr] at hs
    simp at hs
  | some out =>
    have H := renderColumn_frame_and_comm cam1 0 buf0 out (by decide) hr
    constructor
    · show out 4 = 0
      rw [H.1 4 ?_]
      · rfl
      · intro y c hy hc
        omega
    · exact H.2 [1, 2] [2, 1] (by decide) (List.Perm.swap 2 1 []) buf0

/-- Claim C10 (confirmed): after any completed `render`, the alpha byte of
every pixel is 0xFF — ceiling and floor fills write 0xFF directly, and every
wall color (base or darkened) carries 0xFF in its top byte. -/
theorem render_alpha_opaque (cam : Camera) (b out : Buffer)
    (h : render cam b = some out) (x y : Nat) (hx : x < 800) (hy : y < 600) :
    out ((y * 800 + x) * 4 + 3) = 0xFF := by
  exact renderCols_alpha cam (List.range 800) (List.nodup_range 800)
    (fun z hz => List.mem_range.mp hz) b out h x (List.mem_range.mpr hx) y hy

set_option maxHeartbeats 4000000 in
/-- Witness for C10: a concrete completed full render, checked at the alpha
byte of pixel (0,0). -/
theorem render_alpha_opaque_witness :
    ((render cam1 buf0).getD buf0) 3 = 0xFF := by
  cases hr : render cam1 buf0 with
  | none =>
    have hs : (render cam1 buf0).isSome = true := by decide
    rw [hr] at hs
    simp at hs
  | some out =>
    show out 3 = 0xFF
    have h3 := render_alpha_opaque cam1 buf0 out hr 0 0 (by decide) (by decide)
    norm_num at h3
    exact h3

end RustDoom
